import Mathlib

/-!
# Verification of the uniwidth width-classification engine

Shallow embedding of the Go package `uniwidth` (github.com/unilibs/uniwidth).

Modelling conventions:
* Go `rune` is `int32`; we model it as `Int` (no arithmetic in the code can
  overflow 32 bits, so no wrap-around modelling is needed; comparisons are
  signed, exactly as in Go).
* A Go string, for the purposes of the width functions, is modelled as the
  list of its code points (`List Int`).  For all-ASCII strings the byte scan
  of the Go code coincides with the code-point scan, code unit by code unit.
* The generated fallback tables (`tables_generated.go`, referenced by the
  code as `wideTableGenerated`, `zeroWidthTableGenerated`,
  `ambiguousTableGenerated`) and the standard-library combining-mark check
  `unicode.In(r, Mn, Me, Mc)` are not part of the repository sources here;
  the width functions are therefore parametrised by those tables and by that
  predicate, and theorems that depend on them either hold for every value of
  the parameters or take the properties the spec asserts about them as
  hypotheses.  A concrete spec-modelled instantiation is provided for closed
  statements.
-/

/-- A contiguous range of runes with the same width property
(struct `runeRange` in uniwidth.go). -/
structure runeRange where
  first : Int
  last : Int
deriving DecidableEq, Repr

/-! ## The hand-written fallback tables of src/tables.go -/

/-- `wideTable` from src/tables.go (East Asian Wide/Fullwidth fallback data). -/
def wideTable : List runeRange := [
  ⟨0x3000, 0x303F⟩,
  ⟨0x2E80, 0x2E99⟩,
  ⟨0x2E9B, 0x2EF3⟩,
  ⟨0x2F00, 0x2FD5⟩,
  ⟨0x31C0, 0x31E3⟩,
  ⟨0x3200, 0x321E⟩,
  ⟨0x3220, 0x3247⟩,
  ⟨0x3250, 0x4DBE⟩,
  ⟨0xFE30, 0xFE4F⟩,
  ⟨0xFF01, 0xFF60⟩,
  ⟨0xFFE0, 0xFFE6⟩,
  ⟨0x1B000, 0x1B0FF⟩,
  ⟨0x20000, 0x2A6DF⟩,
  ⟨0x2A700, 0x2B73F⟩,
  ⟨0x2B740, 0x2B81F⟩,
  ⟨0x2B820, 0x2CEAF⟩,
  ⟨0x2CEB0, 0x2EBEF⟩,
  ⟨0x30000, 0x3134F⟩,
  ⟨0x2600, 0x26FF⟩,
  ⟨0x2700, 0x27BF⟩,
  ⟨0x1F000, 0x1F02F⟩,
  ⟨0x1F0A0, 0x1F0FF⟩,
  ⟨0x1FA00, 0x1FA6F⟩,
  ⟨0x1FA70, 0x1FAFF⟩,
  ⟨0x10000, 0x1007F⟩]

/-- `zeroWidthTable` from src/tables.go (zero-width fallback data). -/
def zeroWidthTable : List runeRange := [
  ⟨0x0080, 0x009F⟩,
  ⟨0x0300, 0x036F⟩,
  ⟨0x1AB0, 0x1AFF⟩,
  ⟨0x0591, 0x05BD⟩,
  ⟨0x05BF, 0x05BF⟩,
  ⟨0x05C1, 0x05C2⟩,
  ⟨0x05C4, 0x05C5⟩,
  ⟨0x05C7, 0x05C7⟩,
  ⟨0x0610, 0x061A⟩,
  ⟨0x064B, 0x065F⟩,
  ⟨0x0670, 0x0670⟩,
  ⟨0x06D6, 0x06DC⟩,
  ⟨0x06DF, 0x06E4⟩,
  ⟨0x06E7, 0x06E8⟩,
  ⟨0x06EA, 0x06ED⟩,
  ⟨0x0901, 0x0902⟩,
  ⟨0x093A, 0x093A⟩,
  ⟨0x093C, 0x093C⟩,
  ⟨0x0941, 0x0948⟩,
  ⟨0x094D, 0x094D⟩,
  ⟨0x0951, 0x0957⟩,
  ⟨0x0962, 0x0963⟩,
  ⟨0x00AD, 0x00AD⟩,
  ⟨0x200B, 0x200F⟩,
  ⟨0x20D0, 0x20FF⟩,
  ⟨0xFE20, 0xFE2F⟩,
  ⟨0xFE30, 0xFE2F⟩,
  ⟨0xFEFF, 0xFEFF⟩]

/-- `ambiguousTable` from src/tables.go (East Asian Ambiguous fallback data). -/
def ambiguousTable : List runeRange := [
  ⟨0x00A1, 0x00A1⟩,
  ⟨0x00A4, 0x00A4⟩,
  ⟨0x00A7, 0x00A8⟩,
  ⟨0x00AA, 0x00AA⟩,
  ⟨0x00AD, 0x00AE⟩,
  ⟨0x00B0, 0x00B4⟩,
  ⟨0x00B6, 0x00BA⟩,
  ⟨0x00BC, 0x00BF⟩,
  ⟨0x00C6, 0x00C6⟩,
  ⟨0x00D0, 0x00D0⟩,
  ⟨0x00D7, 0x00D8⟩,
  ⟨0x00DE, 0x00E1⟩,
  ⟨0x00E6, 0x00E6⟩,
  ⟨0x00E8, 0x00EA⟩,
  ⟨0x00EC, 0x00ED⟩,
  ⟨0x00F0, 0x00F0⟩,
  ⟨0x00F2, 0x00F3⟩,
  ⟨0x00F7, 0x00FA⟩,
  ⟨0x00FC, 0x00FC⟩,
  ⟨0x00FE, 0x00FE⟩,
  ⟨0x0101, 0x0101⟩,
  ⟨0x0111, 0x0111⟩,
  ⟨0x0113, 0x0113⟩,
  ⟨0x011B, 0x011B⟩,
  ⟨0x0126, 0x0127⟩,
  ⟨0x012B, 0x012B⟩,
  ⟨0x0131, 0x0133⟩,
  ⟨0x0138, 0x0138⟩,
  ⟨0x013F, 0x0142⟩,
  ⟨0x0144, 0x0144⟩,
  ⟨0x0148, 0x014B⟩,
  ⟨0x014D, 0x014D⟩,
  ⟨0x0152, 0x0153⟩,
  ⟨0x0166, 0x0167⟩,
  ⟨0x016B, 0x016B⟩,
  ⟨0x01CE, 0x01CE⟩,
  ⟨0x01D0, 0x01D0⟩,
  ⟨0x01D2, 0x01D2⟩,
  ⟨0x01D4, 0x01D4⟩,
  ⟨0x01D6, 0x01D6⟩,
  ⟨0x01D8, 0x01D8⟩,
  ⟨0x01DA, 0x01DA⟩,
  ⟨0x01DC, 0x01DC⟩,
  ⟨0x2500, 0x257F⟩,
  ⟨0x2580, 0x259F⟩,
  ⟨0x25A0, 0x25FF⟩]

/-! ## Decidable range-table predicates

Bool-valued checkers used to state the RangeTable invariants of the spec
over the concrete tables. -/

/-- Two ranges overlap: they share at least one code point. -/
def overlapsB (a b : runeRange) : Bool :=
  decide (a.first ≤ b.last) && decide (b.first ≤ a.last)

/-- Two ranges are adjacent (touching): one starts right after the other ends,
so a merged table would not keep them separate. -/
def adjacentB (a b : runeRange) : Bool :=
  decide (a.last + 1 = b.first) || decide (b.last + 1 = a.first)

/-- Every entry satisfies `first <= last`. -/
def firstLeLastB (t : List runeRange) : Bool :=
  t.all fun rr => decide (rr.first ≤ rr.last)

/-- The entries are sorted ascending by `first`. -/
def sortedByFirstB : List runeRange → Bool
  | [] => true
  | [_] => true
  | a :: b :: rest => decide (a.first ≤ b.first) && sortedByFirstB (b :: rest)

/-- `pairwiseB p t` holds when `p` holds for every pair of entries of `t`
taken in list order. -/
def pairwiseB (p : runeRange → runeRange → Bool) : List runeRange → Bool
  | [] => true
  | a :: rest => rest.all (p a) && pairwiseB p rest

/-- No two entries of the table overlap. -/
def noOverlapB (t : List runeRange) : Bool :=
  pairwiseB (fun a b => !(overlapsB a b)) t

/-- No two entries of the table are adjacent (touching). -/
def noAdjacentB (t : List runeRange) : Bool :=
  pairwiseB (fun a b => !(adjacentB a b)) t

/-- The full RangeTable invariant asserted by the spec: sorted ascending by
`first`, every entry with `first <= last`, and no two entries overlapping or
adjacent. -/
def tableInvariantB (t : List runeRange) : Bool :=
  sortedByFirstB t && firstLeLastB t && noOverlapB t && noAdjacentB t

/-! ## The hot-path tier ranges of RuneWidth (uniwidth.go) -/

/-- Tier 1 of `RuneWidth`: the ASCII range. -/
def asciiRange : runeRange := ⟨0x00, 0x7F⟩

/-- Tier 2 of `RuneWidth`: the hot wide-script ranges (CJK Unified
Ideographs, Hangul Syllables, Hiragana/Katakana/Bopomofo, CJK Compatibility
Ideographs). -/
def hotWideRanges : List runeRange :=
  [⟨0x4E00, 0x9FFF⟩, ⟨0xAC00, 0xD7AF⟩, ⟨0x3040, 0x312F⟩, ⟨0xF900, 0xFAFF⟩]

/-- Tier 3 of `RuneWidth`: the hot emoji ranges. -/
def hotEmojiRanges : List runeRange :=
  [⟨0x1F600, 0x1F64F⟩, ⟨0x1F300, 0x1F5FF⟩, ⟨0x1F680, 0x1F6FF⟩,
   ⟨0x1F900, 0x1F9FF⟩, ⟨0x2600, 0x26FF⟩, ⟨0x2700, 0x27BF⟩]

/-- The explicit hot zero-width checks of `RuneWidth` (ZWSP, ZWNJ, ZWJ, the
variation-selector blocks). -/
def hotZeroWidthRanges : List runeRange :=
  [⟨0x200B, 0x200B⟩, ⟨0x200C, 0x200C⟩, ⟨0x200D, 0x200D⟩,
   ⟨0xFE00, 0xFE0F⟩, ⟨0xE0100, 0xE01EF⟩]

/-- All hot-path tier ranges checked by `RuneWidth` before the binary-search
fallback. -/
def hotPathRanges : List runeRange :=
  asciiRange :: (hotWideRanges ++ hotEmojiRanges ++ hotZeroWidthRanges)

/-- Every entry of `t` is disjoint from every range in `hot`. -/
def disjointFromB (t hot : List runeRange) : Bool :=
  t.all fun rr => hot.all fun hp => !(overlapsB rr hp)

/-! ## Binary search (func binarySearch in uniwidth.go) -/

/-- The loop of Go `binarySearch`: `low`/`high` are the current search
bounds; the loop runs while `low <= high`, probing the midpoint entry
`mid := (low+high)/2` (written inline here).  The extra `Nat` argument is a
fuel counter that makes the recursion structural (and hence computable by
the kernel): the bracket `high + 1 - low` shrinks on every iteration, so
starting the fuel above the initial bracket width makes the 0-fuel arm
unreachable (`binarySearchAux_complete` proves the loop already answers
within that budget).  The `none` arm of the lookup is likewise unreachable
for the reachable arguments (`0 ≤ low` and `high < len`), where the index
is always in bounds.  The Go midpoint division truncates toward zero; in
every reachable call both operands are nonnegative, where truncating
division and Lean's floor division on `Int` coincide. -/
def binarySearchAux (r : Int) (t : List runeRange) : Nat → Int → Int → Bool
  | 0, _, _ => false
  | fuel + 1, low, high =>
    if low ≤ high then
      match t[((low + high) / 2).toNat]? with
      | none => false
      | some rr =>
        if r < rr.first then binarySearchAux r t fuel low ((low + high) / 2 - 1)
        else if rr.last < r then binarySearchAux r t fuel ((low + high) / 2 + 1) high
        else true
    else false

/-- `binarySearch` from uniwidth.go: binary search of `r` in a sorted rune
range table (`low, high := 0, len(table)-1`; the fuel `len(table) + 1`
covers every iteration the loop can make). -/
def binarySearch (r : Int) (t : List runeRange) : Bool :=
  binarySearchAux r t (t.length + 1) 0 ((t.length : Int) - 1)

/-! ## The generated tables and the combining-mark predicate (parameters) -/

/-- The three generated fallback tables consumed by the classifier
(`tables_generated.go`, produced by cmd/generate-tables and not present in
the sources here); the width functions are parametrised by them. -/
structure GenTables where
  wideTableGenerated : List runeRange
  zeroWidthTableGenerated : List runeRange
  ambiguousTableGenerated : List runeRange

/-- Modelled from the spec: `tables_generated.go` is not among the sources;
per the spec (§2, §4.2) and the generator (cmd/generate-tables/main.go) the
wide table holds East Asian Wide/Fullwidth and emoji ranges outside the hot
paths — including the regional-indicator emoji block `0x1F1E6..0x1F1FF`
(listed with the Emoji property in emoji-data.txt and overlapping no hot
path) — the zero-width table holds combining and format ranges outside the
hot paths, and the ambiguous table holds East Asian Ambiguous ranges.  This
model lists representative ranges; each table is sorted, merged and
hot-path-disjoint as the generator guarantees. -/
def genTablesModel : GenTables where
  wideTableGenerated := [⟨0x3000, 0x303F⟩, ⟨0xFF01, 0xFF60⟩, ⟨0x1F1E6, 0x1F1FF⟩]
  zeroWidthTableGenerated := [⟨0x0080, 0x009F⟩, ⟨0x0300, 0x036F⟩, ⟨0xFEFF, 0xFEFF⟩]
  ambiguousTableGenerated :=
    [⟨0x00A1, 0x00A1⟩, ⟨0x00B0, 0x00B4⟩, ⟨0x00BC, 0x00BF⟩, ⟨0x2500, 0x25FF⟩]

/-- Trivial instantiation of the combining-mark predicate parameter (the
standard-library check `unicode.In(r, Mn, Me, Mc)` is outside the sources);
used only to form closed instances of parametric theorems, which hold for
every instantiation satisfying their hypotheses. -/
def noCombiningMark : Int → Bool := fun _ => false

/-! ## The rune classifier (func RuneWidth, binarySearchWidth) -/

/-- `binarySearchWidth` from uniwidth.go: fallback tier querying the three
generated tables in order wide, zero-width, ambiguous; ambiguous defaults to
narrow (width 1). -/
def binarySearchWidth (t : GenTables) (r : Int) : Int :=
  if binarySearch r t.wideTableGenerated then 2
  else if binarySearch r t.zeroWidthTableGenerated then 0
  else if binarySearch r t.ambiguousTableGenerated then 1
  else 1

/-- `RuneWidth` from uniwidth.go: the tiered classifier.  `mk` stands for the
standard-library combining-mark membership test `unicode.In(r, Mn, Me, Mc)`,
`t` for the generated fallback tables. -/
def RuneWidth (mk : Int → Bool) (t : GenTables) (r : Int) : Int :=
  if r < 0x80 then
    if r < 0x20 then 0
    else if r = 0x7F then 0
    else 1
  else if 0x4E00 ≤ r ∧ r ≤ 0x9FFF then 2
  else if 0xAC00 ≤ r ∧ r ≤ 0xD7AF then 2
  else if 0x3040 ≤ r ∧ r ≤ 0x312F then 2
  else if 0xF900 ≤ r ∧ r ≤ 0xFAFF then 2
  else if 0x1F600 ≤ r ∧ r ≤ 0x1F64F then 2
  else if 0x1F300 ≤ r ∧ r ≤ 0x1F5FF then 2
  else if 0x1F680 ≤ r ∧ r ≤ 0x1F6FF then 2
  else if 0x1F900 ≤ r ∧ r ≤ 0x1F9FF then 2
  else if 0x2600 ≤ r ∧ r ≤ 0x26FF then 2
  else if 0x2700 ≤ r ∧ r ≤ 0x27BF then 2
  else if r = 0x200B then 0
  else if r = 0x200C then 0
  else if r = 0x200D then 0
  else if 0xFE00 ≤ r ∧ r ≤ 0xFE0F then 0
  else if 0xE0100 ≤ r ∧ r ≤ 0xE01EF then 0
  else if mk r then 0
  else binarySearchWidth t r

/-! ## The composition resolver (func StringWidth and helpers) -/

/-- `isRegionalIndicator` from uniwidth.go. -/
def isRegionalIndicator (r : Int) : Bool :=
  decide (0x1F1E6 ≤ r) && decide (r ≤ 0x1F1FF)

/-- `isASCIIOnly` from uniwidth.go: every code unit below `0x80`. -/
def isASCIIOnly (s : List Int) : Bool :=
  s.all fun b => decide (b < 0x80)

/-- The rune-scanning loop of `StringWidth` with one-code-point lookahead:
regional-indicator pairs contribute 2, a pair ended by the text variation
selector contributes 1, by the emoji variation selector 2 (advancing by two
code points in each of those cases), and otherwise the code point is scored
by `RuneWidth`. -/
def scanRunes (mk : Int → Bool) (t : GenTables) : List Int → Int
  | [] => 0
  | [r] => RuneWidth mk t r
  | r :: next :: rest =>
    if isRegionalIndicator r && isRegionalIndicator next then
      2 + scanRunes mk t rest
    else if next = 0xFE0E then
      1 + scanRunes mk t rest
    else if next = 0xFE0F then
      2 + scanRunes mk t rest
    else
      RuneWidth mk t r + scanRunes mk t (next :: rest)

/-- `StringWidth` from uniwidth.go: the all-ASCII fast path counts the code
units that are not control characters and not DELETE; otherwise the rune
scan with lookahead runs. -/
def StringWidth (mk : Int → Bool) (t : GenTables) (s : List Int) : Int :=
  if isASCIIOnly s then
    s.foldl (fun width b => if b < 0x20 ∨ b = 0x7F then width else width + 1) 0
  else
    scanRunes mk t s

/-! ## The options API (options.go) -/

/-- `EANarrow`: ambiguous characters count as narrow (width 1). -/
def EANarrow : Int := 1

/-- `EAWide`: ambiguous characters count as wide (width 2). -/
def EAWide : Int := 2

/-- `Options` from options.go (the record after all functional options have
been applied). -/
structure Options where
  EastAsianAmbiguous : Int
  EmojiPresentation : Bool

/-- `defaultOptions` from options.go. -/
def defaultOptions : Options where
  EastAsianAmbiguous := EANarrow
  EmojiPresentation := true

/-- `binarySearchWidthInternal` from options.go: like `binarySearchWidth`
but returning `-1` for ambiguous characters so the caller decides. -/
def binarySearchWidthInternal (t : GenTables) (r : Int) : Int :=
  if binarySearch r t.wideTableGenerated then 2
  else if binarySearch r t.zeroWidthTableGenerated then 0
  else if binarySearch r t.ambiguousTableGenerated then -1
  else 1

/-- `runeWidthInternal` from options.go: the tiered classifier used by the
options API; combining marks are tested by explicit ranges (no standard
library use), and ambiguous characters yield `-1`. -/
def runeWidthInternal (t : GenTables) (r : Int) : Int :=
  if r < 0x80 then
    if r < 0x20 then 0
    else if r = 0x7F then 0
    else 1
  else if 0x4E00 ≤ r ∧ r ≤ 0x9FFF then 2
  else if 0xAC00 ≤ r ∧ r ≤ 0xD7AF then 2
  else if 0x3040 ≤ r ∧ r ≤ 0x30FF then 2
  else if 0xF900 ≤ r ∧ r ≤ 0xFAFF then 2
  else if 0x1F600 ≤ r ∧ r ≤ 0x1F64F then 2
  else if 0x1F300 ≤ r ∧ r ≤ 0x1F5FF then 2
  else if 0x1F680 ≤ r ∧ r ≤ 0x1F6FF then 2
  else if 0x1F900 ≤ r ∧ r ≤ 0x1F9FF then 2
  else if 0x2600 ≤ r ∧ r ≤ 0x26FF then 2
  else if 0x2700 ≤ r ∧ r ≤ 0x27BF then 2
  else if r = 0x200D ∨ r = 0x200C then 0
  else if 0xFE00 ≤ r ∧ r ≤ 0xFE0F then 0
  else if 0xE0100 ≤ r ∧ r ≤ 0xE01EF then 0
  else if (0x0300 ≤ r ∧ r ≤ 0x036F) ∨ (0x1AB0 ≤ r ∧ r ≤ 0x1AFF) ∨
          (0x1DC0 ≤ r ∧ r ≤ 0x1DFF) ∨ (0x20D0 ≤ r ∧ r ≤ 0x20FF) ∨
          (0xFE20 ≤ r ∧ r ≤ 0xFE2F) then 0
  else binarySearchWidthInternal t r

/-- `StringWidthWithOptions` from options.go: ASCII-only strings return
their length directly; otherwise the per-rune widths are summed, resolving
the ambiguous marker `-1` through the options. -/
def StringWidthWithOptions (t : GenTables) (options : Options) (s : List Int) : Int :=
  if isASCIIOnly s then (s.length : Int)
  else
    s.foldl (fun width r =>
      let w := runeWidthInternal t r
      if w = -1 then width + options.EastAsianAmbiguous else width + w) 0

/-- A code point of the ambiguous class, as the options API determines it:
the tiered classifier falls through to the generated ambiguous table. -/
def isAmbiguousClass (t : GenTables) (r : Int) : Bool :=
  decide (runeWidthInternal t r = -1)

/-- All entries of `s` lie in the ASCII byte range `0..0x7F`. -/
def asciiBounded (s : List Int) : Bool :=
  s.all fun c => decide (0 ≤ c) && decide (c < 0x80)

/-- No entry of the table contains `r`. -/
def noEntryContainsB (t : List runeRange) (r : Int) : Bool :=
  t.all fun rr => !(decide (rr.first ≤ r) && decide (r ≤ rr.last))

/-! ## Helper lemmas about the binary search -/

/-- Soundness of the search loop: a `true` answer exhibits an entry of the
table containing `r` (no sortedness assumptions needed, since the loop only
answers `true` at a probed entry). -/
lemma binarySearchAux_sound (r : Int) (t : List runeRange) :
    ∀ (n : Nat) (low high : Int),
      binarySearchAux r t n low high = true →
      ∃ rr, rr ∈ t ∧ rr.first ≤ r ∧ r ≤ rr.last := by
  intro n
  induction n with
  | zero =>
    intro low high h
    exact absurd h (by simp [binarySearchAux])
  | succ n ih =>
    intro low high h
    rw [binarySearchAux] at h
    split at h
    next hlh =>
      split at h
      next hg => exact absurd h (by simp)
      next rr hg =>
        split at h
        next h1 => exact ih low ((low + high) / 2 - 1) h
        next h1 =>
          split at h
          next h2 => exact ih ((low + high) / 2 + 1) high h
          next h2 => exact ⟨rr, List.getElem?_mem hg, by omega, by omega⟩
    next hlh => exact absurd h (by simp)

/-- `binarySearch` never answers `true` when no entry of the table contains
the probe. -/
lemma binarySearch_eq_false (r : Int) (t : List runeRange)
    (h : noEntryContainsB t r = true) : binarySearch r t = false := by
  by_contra hc
  have htrue : binarySearch r t = true := by
    cases hb : binarySearch r t
    · exact absurd hb hc
    · rfl
  obtain ⟨rr, hmem, h1, h2⟩ :=
    binarySearchAux_sound r t (t.length + 1) 0 ((t.length : Int) - 1) htrue
  simp only [noEntryContainsB, List.all_eq_true, Bool.not_eq_true',
    Bool.and_eq_false_iff, decide_eq_false_iff_not] at h
  rcases h rr hmem with h3 | h3 <;> omega

/-- Lifting the Bool sortedness checker to `List.Pairwise`. -/
lemma sortedByFirstB_pairwise :
    ∀ t : List runeRange, sortedByFirstB t = true →
      t.Pairwise fun a b => a.first ≤ b.first := by
  intro t
  induction t with
  | nil => intro _; exact List.Pairwise.nil
  | cons a rest ih =>
    cases rest with
    | nil => intro _; simp
    | cons b rest2 =>
      intro h
      simp only [sortedByFirstB, Bool.and_eq_true, decide_eq_true_eq] at h
      have hp := ih h.2
      refine List.Pairwise.cons ?_ hp
      intro x hx
      rcases List.mem_cons.mp hx with rfl | hx2
      · exact h.1
      · exact le_trans h.1 (List.rel_of_pairwise_cons hp hx2)

/-- Lifting the Bool pairwise checker to `List.Pairwise`. -/
lemma pairwiseB_pairwise (p : runeRange → runeRange → Bool) :
    ∀ t, pairwiseB p t = true → t.Pairwise fun a b => p a b = true := by
  intro t
  induction t with
  | nil => intro _; exact List.Pairwise.nil
  | cons a rest ih =>
    intro h
    simp only [pairwiseB, Bool.and_eq_true, List.all_eq_true] at h
    exact List.Pairwise.cons (fun x hx => h.1 x hx) (ih h.2)

/-- Lifting the Bool `first <= last` checker to membership. -/
lemma firstLeLastB_mem {t : List runeRange} (h : firstLeLastB t = true) :
    ∀ rr ∈ t, rr.first ≤ rr.last := by
  simp only [firstLeLastB, List.all_eq_true, decide_eq_true_eq] at h
  exact h

/-- Reading the Bool no-overlap checker as a propositional `Pairwise`. -/
lemma noOverlapB_pairwise {t : List runeRange} (h : noOverlapB t = true) :
    t.Pairwise fun a b => ¬(a.first ≤ b.last ∧ b.first ≤ a.last) := by
  refine (pairwiseB_pairwise _ t h).imp ?_
  intro a b hab hcon
  rw [overlapsB, decide_eq_true hcon.1, decide_eq_true hcon.2] at hab
  exact absurd hab (by simp)

/-- Sorted, pairwise-disjoint tables with well-formed entries are chains:
an earlier entry ends strictly before a later entry starts. -/
lemma chain_of_invariants {t : List runeRange}
    (hs : sortedByFirstB t = true) (ho : noOverlapB t = true)
    (hf : firstLeLastB t = true) :
    ∀ (i j : Fin t.length), (i : Nat) < (j : Nat) →
      (t.get i).last < (t.get j).first := by
  intro i j hij
  have h1 := List.pairwise_iff_get.mp (sortedByFirstB_pairwise t hs) i j hij
  have h2 := List.pairwise_iff_get.mp (noOverlapB_pairwise ho) i j hij
  have h3 : (t.get i).first ≤ (t.get i).last :=
    firstLeLastB_mem hf _ (t.get_mem i.1 i.2)
  have h4 : (t.get j).first ≤ (t.get j).last :=
    firstLeLastB_mem hf _ (t.get_mem j.1 j.2)
  omega

/-- Completeness of the search loop: if some entry within the current
bounds contains `r`, the loop answers `true` (chain hypothesis on the
table). -/
lemma binarySearchAux_complete (r : Int) (t : List runeRange)
    (chain : ∀ (i j : Fin t.length), (i : Nat) < (j : Nat) →
      (t.get i).last < (t.get j).first)
    (hf : ∀ rr ∈ t, rr.first ≤ rr.last) :
    ∀ (n : Nat) (low high : Int) (k : Nat) (hk : k < t.length),
      (high + 1 - low).toNat ≤ n →
      0 ≤ low → high < (t.length : Int) →
      low ≤ (k : Int) → (k : Int) ≤ high →
      (t.get ⟨k, hk⟩).first ≤ r → r ≤ (t.get ⟨k, hk⟩).last →
      binarySearchAux r t n low high = true := by
  intro n
  induction n with
  | zero =>
    intro low high k hk hn h0 hh hlk hkh hkf hkl
    omega
  | succ n ih =>
    intro low high k hk hn h0 hh hlk hkh hkf hkl
    have hlh : low ≤ high := le_trans hlk hkh
    have hmn : ((low + high) / 2).toNat < t.length := by omega
    rw [binarySearchAux, if_pos hlh]
    split
    next hg =>
      rw [List.getElem?_eq_none_iff] at hg
      omega
    next rr hg =>
      have hrr : rr = t.get ⟨((low + high) / 2).toNat, hmn⟩ := by
        have hsome := List.getElem?_eq_getElem hmn
        rw [hg] at hsome
        exact Option.some_injective _ hsome
      have hmem : rr ∈ t := List.getElem?_mem hg
      by_cases h1 : r < rr.first
      · rw [if_pos h1]
        have hkm : (k : Int) < (low + high) / 2 := by
          by_contra hcon
          push_neg at hcon
          rcases lt_or_eq_of_le hcon with hltk | heqk
          · have hchain := chain ⟨((low + high) / 2).toNat, hmn⟩ ⟨k, hk⟩
              (show ((low + high) / 2).toNat < k by omega)
            rw [← hrr] at hchain
            have := hf rr hmem
            omega
          · have : (⟨k, hk⟩ : Fin t.length) = ⟨((low + high) / 2).toNat, hmn⟩ :=
              Fin.ext (show k = ((low + high) / 2).toNat by omega)
            rw [this, ← hrr] at hkf
            omega
        exact ih low ((low + high) / 2 - 1) k hk (by omega) h0 (by omega) hlk
          (by omega) hkf hkl
      · rw [if_neg h1]
        by_cases h2 : rr.last < r
        · rw [if_pos h2]
          have hkm : (low + high) / 2 < (k : Int) := by
            by_contra hcon
            push_neg at hcon
            rcases lt_or_eq_of_le hcon with hltk | heqk
            · have hchain := chain ⟨k, hk⟩ ⟨((low + high) / 2).toNat, hmn⟩
                (show k < ((low + high) / 2).toNat by omega)
              rw [← hrr] at hchain
              have hwf : (t.get ⟨k, hk⟩).first ≤ (t.get ⟨k, hk⟩).last :=
                hf _ (t.get_mem k hk)
              omega
            · have : (⟨k, hk⟩ : Fin t.length) = ⟨((low + high) / 2).toNat, hmn⟩ :=
                Fin.ext (show k = ((low + high) / 2).toNat by omega)
              rw [this, ← hrr] at hkl
              omega
          exact ih ((low + high) / 2 + 1) high k hk (by omega) (by omega) hh
            (by omega) hkh hkf hkl
        · rw [if_neg h2]

/-! ## Helper lemmas about folds and the ASCII tiers -/

/-- Accumulating folds of pointwise contributions are sums. -/
lemma foldl_add_eq_sum (g : Int → Int) :
    ∀ (s : List Int) (init : Int),
      s.foldl (fun acc r => acc + g r) init = init + (s.map g).sum := by
  intro s
  induction s with
  | nil => intro init; simp
  | cons a s ih =>
    intro init
    simp only [List.foldl_cons, List.map_cons, List.sum_cons, ih]
    ring

/-- The ASCII tier of `RuneWidth`: control characters and DELETE are zero
width, every other ASCII code unit is narrow. -/
lemma runeWidth_ascii (mk : Int → Bool) (t : GenTables) {c : Int}
    (h : c < 0x80) :
    RuneWidth mk t c = if c < 0x20 ∨ c = 0x7F then 0 else 1 := by
  rw [RuneWidth, if_pos h]
  by_cases h1 : c < 0x20
  · rw [if_pos h1, if_pos (Or.inl h1)]
  · rw [if_neg h1]
    by_cases h2 : c = 0x7F
    · rw [if_pos h2, if_pos (Or.inr h2)]
    · rw [if_neg h2, if_neg (by tauto)]

/-- The ASCII tier of `runeWidthInternal` never reports the ambiguous
marker. -/
lemma runeWidthInternal_ascii (t : GenTables) {c : Int} (h : c < 0x80) :
    runeWidthInternal t c ≠ -1 := by
  rw [runeWidthInternal, if_pos h]
  by_cases h1 : c < 0x20
  · rw [if_pos h1]; decide
  · rw [if_neg h1]
    by_cases h2 : c = 0x7F
    · rw [if_pos h2]; decide
    · rw [if_neg h2]; decide

/-- `asciiBounded` implies the byte-scan ASCII test of the code. -/
lemma isASCIIOnly_of_bounded {s : List Int} (h : asciiBounded s = true) :
    isASCIIOnly s = true := by
  simp only [asciiBounded, List.all_eq_true, Bool.and_eq_true,
    decide_eq_true_eq] at h
  simp only [isASCIIOnly, List.all_eq_true, decide_eq_true_eq]
  intro b hb
  exact (h b hb).2

/-- The non-ASCII branch of `StringWidthWithOptions` as a sum over per-rune
contributions. -/
lemma swwo_eq_sum (t : GenTables) (o : Options) (s : List Int)
    (h : isASCIIOnly s = false) :
    StringWidthWithOptions t o s
      = (s.map fun r =>
          if runeWidthInternal t r = -1 then o.EastAsianAmbiguous
          else runeWidthInternal t r).sum := by
  rw [StringWidthWithOptions, if_neg (by simp [h])]
  have hfun : (fun (width r : Int) =>
        let w := runeWidthInternal t r
        if w = -1 then width + o.EastAsianAmbiguous else width + w)
      = fun (width r : Int) => width +
          (if runeWidthInternal t r = -1 then o.EastAsianAmbiguous
           else runeWidthInternal t r) := by
    funext width r
    dsimp only
    split
    · rfl
    · rfl
  rw [hfun, foldl_add_eq_sum]
  simp

/-- Summing the wide-resolved contributions equals summing the
narrow-resolved ones plus the number of ambiguous-class code points. -/
lemma swwo_sum_split (t : GenTables) :
    ∀ s : List Int,
      (s.map fun r =>
        if runeWidthInternal t r = -1 then (2 : Int)
        else runeWidthInternal t r).sum
      = (s.map fun r =>
          if runeWidthInternal t r = -1 then (1 : Int)
          else runeWidthInternal t r).sum
        + (s.countP (isAmbiguousClass t) : Int) := by
  intro s
  induction s with
  | nil => simp
  | cons a s ih =>
    simp only [List.map_cons, List.sum_cons, List.countP_cons, ih]
    by_cases h : runeWidthInternal t a = -1
    · rw [if_pos h, if_pos h]
      have ha : isAmbiguousClass t a = true := by
        simp [isAmbiguousClass, h]
      rw [if_pos ha]
      push_cast
      ring
    · rw [if_neg h, if_neg h]
      have ha : ¬(isAmbiguousClass t a = true) := by
        simp [isAmbiguousClass, h]
      rw [if_neg ha]
      push_cast
      ring

/-! ## Claim C1: invariants of the fallback tables in src/tables.go -/

/-- Claim C1 counterexample: the asserted RangeTable invariants fail on the
concrete data of src/tables.go.  `wideTable` and `zeroWidthTable` are not
sorted ascending by `first` (`wideTable` opens with `0x3000` before
`0x2E80`), `zeroWidthTable` contains the inverted entry `{0xFE30, 0xFE2F}`
with `first > last`, and each of the three tables contains a pair of
adjacent (touching) entries (for example `{0x2600,0x26FF}`/`{0x2700,0x27BF}`
in `wideTable`, `{0xFE20,0xFE2F}`/`{0xFE30,...}` in `zeroWidthTable`, and
`{0x2500,0x257F}`/`{0x2580,0x259F}` in `ambiguousTable`). -/
theorem C1_table_invariants_counterexample :
    ¬(tableInvariantB wideTable = true ∧ tableInvariantB zeroWidthTable = true ∧
      tableInvariantB ambiguousTable = true) := by
  decide

/-- Claim C1 (amended): within each of the three fallback tables no two
entries overlap; every `wideTable` and `ambiguousTable` entry satisfies
`first <= last`; and `ambiguousTable` is sorted ascending by `first`.  The
remaining parts of the claim fail: `wideTable` and `zeroWidthTable` are not
sorted, `zeroWidthTable` has an entry with `first > last`, and each table
contains adjacent (touching) entries that were not merged. -/
theorem C1_table_invariants_amended :
    noOverlapB wideTable = true ∧ noOverlapB zeroWidthTable = true ∧
    noOverlapB ambiguousTable = true ∧
    firstLeLastB wideTable = true ∧ firstLeLastB ambiguousTable = true ∧
    sortedByFirstB ambiguousTable = true ∧
    sortedByFirstB wideTable = false ∧ sortedByFirstB zeroWidthTable = false ∧
    firstLeLastB zeroWidthTable = false ∧
    noAdjacentB wideTable = false ∧ noAdjacentB zeroWidthTable = false ∧
    noAdjacentB ambiguousTable = false := by
  decide

/-! ## Claim C2: disjointness of the fallback tables from the hot tiers -/

/-- Claim C2 counterexample: the fallback tables of src/tables.go are not
disjoint from the hot-path tier ranges of `RuneWidth`: `wideTable` contains
the hot emoji tier ranges `{0x2600,0x26FF}` and `{0x2700,0x27BF}` verbatim,
and `zeroWidthTable`'s `{0x200B,0x200F}` overlaps the hot zero-width checks
for ZWSP/ZWNJ/ZWJ (`0x200B..0x200D`). -/
theorem C2_hot_disjointness_counterexample :
    ¬(disjointFromB wideTable hotPathRanges = true ∧
      disjointFromB zeroWidthTable hotPathRanges = true ∧
      disjointFromB ambiguousTable hotPathRanges = true) := by
  decide

/-- Claim C2 (amended): every `ambiguousTable` interval is disjoint from
every hot-path tier range; every `wideTable` interval is disjoint from the
ASCII range, the hot wide-script ranges and the hot zero-width ranges; and
every `zeroWidthTable` interval is disjoint from the ASCII range, the hot
wide-script ranges and the hot emoji ranges.  But `wideTable` overlaps the
hot emoji tier and `zeroWidthTable` overlaps the hot zero-width checks, so
the full disjointness claim fails for those two tables. -/
theorem C2_hot_disjointness_amended :
    disjointFromB ambiguousTable hotPathRanges = true ∧
    disjointFromB wideTable (asciiRange :: (hotWideRanges ++ hotZeroWidthRanges)) = true ∧
    disjointFromB zeroWidthTable (asciiRange :: (hotWideRanges ++ hotEmojiRanges)) = true ∧
    disjointFromB wideTable hotEmojiRanges = false ∧
    disjointFromB zeroWidthTable hotZeroWidthRanges = false := by
  decide

/-! ## Claim C3: classifier behaviour on invalid code points -/

/-- Claim C3 counterexample: the claim asserts width 1 for every 32-bit
input outside `0..0x10FFFF`, but a negative input is caught by the ASCII
tier (`r < 0x80` is a signed comparison) and classified as a control
character: `RuneWidth(-1) = 0`, not 1. -/
theorem C3_negative_input_counterexample :
    RuneWidth noCombiningMark genTablesModel (-1) = 0 := by
  rfl

/-- Claim C3 (amended): for every input in the surrogate range
`0xD800..0xDFFF` or above `0x10FFFF` (up to the 32-bit maximum),
`RuneWidth` returns 1, for every combining-mark predicate that is false
there and all fallback tables with no entry containing the input (which is
what the spec asserts of the real tables); negative 32-bit inputs instead
take the ASCII tier and return 0.  Totality is by construction: `RuneWidth`
is a total function. -/
theorem C3_invalid_inputs_amended :
    (∀ (mk : Int → Bool) (t : GenTables) (r : Int),
        ((0xD800 ≤ r ∧ r ≤ 0xDFFF) ∨ (0x10FFFF < r ∧ r < 2147483648)) →
        mk r = false →
        noEntryContainsB t.wideTableGenerated r = true →
        noEntryContainsB t.zeroWidthTableGenerated r = true →
        noEntryContainsB t.ambiguousTableGenerated r = true →
        RuneWidth mk t r = 1) ∧
    (∀ (mk : Int → Bool) (t : GenTables) (r : Int),
        -2147483648 ≤ r → r < 0 → RuneWidth mk t r = 0) := by
  constructor
  · intro mk t r hr hmk hw hz ha
    rw [RuneWidth]
    rw [if_neg (by omega)]
    rw [if_neg (by omega)]
    rw [if_neg (by omega)]
    rw [if_neg (by omega)]
    rw [if_neg (by omega)]
    rw [if_neg (by omega)]
    rw [if_neg (by omega)]
    rw [if_neg (by omega)]
    rw [if_neg (by omega)]
    rw [if_neg (by omega)]
    rw [if_neg (by omega)]
    rw [if_neg (by omega)]
    rw [if_neg (by omega)]
    rw [if_neg (by omega)]
    rw [if_neg (by omega)]
    rw [if_neg (by omega)]
    rw [if_neg (by simp [hmk])]
    rw [binarySearchWidth]
    rw [binarySearch_eq_false r _ hw, binarySearch_eq_false r _ hz,
      binarySearch_eq_false r _ ha]
    simp
  · intro mk t r h1 h2
    rw [RuneWidth, if_pos (show r < 0x80 by omega),
      if_pos (show r < 0x20 by omega)]

/-- Claim C3 witness: the amended theorem applied at the surrogate `0xD800`
(yielding width 1) and at the negative input `-5` (yielding width 0), with
the spec-modelled tables and the trivial combining-mark instantiation. -/
theorem C3_invalid_inputs_witness :
    (((0xD800 : Int) ≤ 0xD800 ∧ (0xD800 : Int) ≤ 0xDFFF) ∨
      ((0x10FFFF : Int) < 0xD800 ∧ (0xD800 : Int) < 2147483648)) ∧
    noCombiningMark 0xD800 = false ∧
    noEntryContainsB genTablesModel.wideTableGenerated 0xD800 = true ∧
    noEntryContainsB genTablesModel.zeroWidthTableGenerated 0xD800 = true ∧
    noEntryContainsB genTablesModel.ambiguousTableGenerated 0xD800 = true ∧
    RuneWidth noCombiningMark genTablesModel 0xD800 = 1 ∧
    (-2147483648 ≤ (-5 : Int)) ∧ ((-5 : Int) < 0) ∧
    RuneWidth noCombiningMark genTablesModel (-5) = 0 :=
  ⟨by decide, by decide, by decide, by decide, by decide,
   C3_invalid_inputs_amended.1 noCombiningMark genTablesModel 0xD800
     (by decide) (by decide) (by decide) (by decide) (by decide),
   by decide, by decide,
   C3_invalid_inputs_amended.2 noCombiningMark genTablesModel (-5)
     (by decide) (by decide)⟩

/-! ## Claim C4: the ASCII fast path of StringWidthWithOptions -/

/-- Claim C4 (code bug): on all-ASCII input `StringWidthWithOptions`
returns the raw code-unit count `len(s)`, counting control characters and
DELETE, for every options value — although its documentation says it
applies the same fast paths as `StringWidth`, whose fast path excludes
them.  Evaluated at the failing input `"\n"` (code point `0x0A`):
`StringWidthWithOptions` gives 1 while `StringWidth` (and the claim)
give 0. -/
theorem C4_swwo_ascii_control_evaluation :
    (∀ (t : GenTables) (o : Options), StringWidthWithOptions t o [0x0A] = 1) ∧
    (∀ (mk : Int → Bool) (t : GenTables), StringWidth mk t [0x0A] = 0) := by
  constructor
  · intro t o
    rfl
  · intro mk t
    rfl

/-! ## Claim C5: the variation-selector override rule -/

/-- Claim C5 counterexample: `StringWidthWithOptions` does not apply the
variation-selector override; the claim says the pair `<U+2600, U+FE0E>`
yields 1 for every options value, but the code scores the two code points
independently (`2 + 0`) and returns 2. -/
theorem C5_swwo_text_selector_counterexample :
    StringWidthWithOptions genTablesModel defaultOptions [0x2600, 0xFE0E] = 2 := by
  rfl

/-- Claim C5 (amended): `StringWidth` applies the variation-selector
override at any scan position: a pair ended by the text-presentation
selector `U+FE0E` contributes exactly 1 and the scan advances by two code
points, and one ended by the emoji-presentation selector `U+FE0F`
contributes exactly 2; in particular `StringWidth` maps `<U+2600, U+FE0E>`
to 1 and `<U+2600, U+FE0F>` to 2.  `StringWidthWithOptions`, however,
applies no such override for any options value: it sums the individual
widths, mapping both pairs to 2 (`2 + 0`). -/
theorem C5_variation_selector_amended :
    (∀ (mk : Int → Bool) (t : GenTables) (r : Int) (rest : List Int),
        scanRunes mk t (r :: 0xFE0E :: rest) = 1 + scanRunes mk t rest ∧
        scanRunes mk t (r :: 0xFE0F :: rest) = 2 + scanRunes mk t rest) ∧
    (∀ (mk : Int → Bool) (t : GenTables),
        StringWidth mk t [0x2600, 0xFE0E] = 1 ∧
        StringWidth mk t [0x2600, 0xFE0F] = 2) ∧
    (∀ (t : GenTables) (o : Options),
        StringWidthWithOptions t o [0x2600, 0xFE0E] = 2 ∧
        StringWidthWithOptions t o [0x2600, 0xFE0F] = 2) := by
  refine ⟨?_, ?_, ?_⟩
  · intro mk t r rest
    constructor
    · rw [scanRunes,
        show isRegionalIndicator 0xFE0E = false from rfl, Bool.and_false,
        if_neg (by simp), if_pos rfl]
    · rw [scanRunes,
        show isRegionalIndicator 0xFE0F = false from rfl, Bool.and_false,
        if_neg (by simp), if_neg (by decide), if_pos rfl]
  · intro mk t
    exact ⟨rfl, rfl⟩
  · intro t o
    exact ⟨rfl, rfl⟩

/-! ## Claim C6: regional-indicator flag pairing -/

/-- Claim C6 counterexample: `StringWidthWithOptions` has no
regional-indicator pairing rule; with the generated wide table (modelled
from the spec to contain the regional-indicator emoji block) each indicator
of the pair `<0x1F1FA, 0x1F1F8>` scores 2 on its own and the claimed result
2 becomes 4. -/
theorem C6_swwo_flag_counterexample :
    StringWidthWithOptions genTablesModel defaultOptions [0x1F1FA, 0x1F1F8] = 4 := by
  rfl

/-- Claim C6 (amended): for every two code points in the regional-indicator
range, `StringWidth` of the two-code-point sequence is 2, not 4 (in
particular for `<0x1F1FA, 0x1F1F8>`).  `StringWidthWithOptions` does not
pair the indicators: it sums their individual widths, giving 4 for every
options value with the spec-modelled generated wide table. -/
theorem C6_flag_pair_amended :
    (∀ (mk : Int → Bool) (t : GenTables) (c1 c2 : Int),
        isRegionalIndicator c1 = true → isRegionalIndicator c2 = true →
        StringWidth mk t [c1, c2] = 2) ∧
    (∀ o : Options,
        StringWidthWithOptions genTablesModel o [0x1F1FA, 0x1F1F8] = 4) := by
  constructor
  · intro mk t c1 c2 h1 h2
    have hc1 : 0x1F1E6 ≤ c1 := by
      simp only [isRegionalIndicator, Bool.and_eq_true, decide_eq_true_eq] at h1
      exact h1.1
    have hascii : isASCIIOnly [c1, c2] = false := by
      simp only [isASCIIOnly, List.all_cons, List.all_nil, Bool.and_true]
      rw [decide_eq_false (by omega : ¬(c1 < 0x80)), Bool.false_and]
    rw [StringWidth, if_neg (by simp [hascii]), scanRunes,
      if_pos (by rw [h1, h2]; rfl)]
    norm_num [scanRunes]
  · intro o
    rfl

/-- Claim C6 witness: the amended pairing rule applied at the United States
flag pair `<0x1F1FA, 0x1F1F8>`. -/
theorem C6_flag_pair_witness :
    isRegionalIndicator 0x1F1FA = true ∧ isRegionalIndicator 0x1F1F8 = true ∧
    StringWidth noCombiningMark genTablesModel [0x1F1FA, 0x1F1F8] = 2 :=
  ⟨by decide, by decide,
   C6_flag_pair_amended.1 noCombiningMark genTablesModel 0x1F1FA 0x1F1F8
     (by decide) (by decide)⟩

/-! ## Claim C7: ambiguous-width toggling -/

/-- Claim C7: for every input and every generated tables instance, resolving
ambiguous characters as wide yields at least the narrow-resolved width, with
equality exactly when the input contains no ambiguous-class code point
(a code point on which the classifier falls through to the generated
ambiguous table). -/
theorem C7_ambiguous_toggling (t : GenTables) (s : List Int) :
    StringWidthWithOptions t ⟨EAWide, true⟩ s ≥
      StringWidthWithOptions t ⟨EANarrow, true⟩ s ∧
    (StringWidthWithOptions t ⟨EAWide, true⟩ s =
        StringWidthWithOptions t ⟨EANarrow, true⟩ s ↔
      ∀ r ∈ s, isAmbiguousClass t r = false) := by
  by_cases hascii : isASCIIOnly s = true
  · have hceq : StringWidthWithOptions t ⟨EAWide, true⟩ s =
        StringWidthWithOptions t ⟨EANarrow, true⟩ s := by
      rw [StringWidthWithOptions, StringWidthWithOptions, if_pos hascii,
        if_pos hascii]
    refine ⟨ge_of_eq hceq, ?_, fun _ => hceq⟩
    intro _ r hr
    have hlt : r < 0x80 := by
      simp only [isASCIIOnly, List.all_eq_true, decide_eq_true_eq] at hascii
      exact hascii r hr
    simp [isAmbiguousClass, runeWidthInternal_ascii t hlt]
  · have hfalse : isASCIIOnly s = false := by
      cases h : isASCIIOnly s
      · rfl
      · exact absurd h hascii
    rw [swwo_eq_sum t ⟨EAWide, true⟩ s hfalse,
      swwo_eq_sum t ⟨EANarrow, true⟩ s hfalse]
    have hwide : (s.map fun r =>
          if runeWidthInternal t r = -1
          then (Options.mk EAWide true).EastAsianAmbiguous
          else runeWidthInternal t r).sum
        = (s.map fun r =>
            if runeWidthInternal t r = -1 then (2 : Int)
            else runeWidthInternal t r).sum := rfl
    have hnarrow : (s.map fun r =>
          if runeWidthInternal t r = -1
          then (Options.mk EANarrow true).EastAsianAmbiguous
          else runeWidthInternal t r).sum
        = (s.map fun r =>
            if runeWidthInternal t r = -1 then (1 : Int)
            else runeWidthInternal t r).sum := rfl
    rw [hwide, hnarrow, swwo_sum_split]
    have hpos : (0 : Int) ≤ (s.countP (isAmbiguousClass t) : Int) :=
      Int.natCast_nonneg _
    refine ⟨by omega, ?_, ?_⟩
    · intro heq r hr
      have hcount : s.countP (isAmbiguousClass t) = 0 := by omega
      have := List.countP_eq_zero.mp hcount r hr
      simpa using this
    · intro hall
      have hcount : s.countP (isAmbiguousClass t) = 0 :=
        List.countP_eq_zero.mpr (fun a ha => by simp [hall a ha])
      rw [hcount]
      simp

/-! ## Claim C8: ASCII fast-path equivalence of StringWidth -/

/-- Claim C8: on input whose code units all lie in the ASCII byte range,
the byte-scan fast path of `StringWidth` returns exactly the sum of
`RuneWidth` over the code points, for every combining-mark predicate and
generated tables instance. -/
theorem C8_ascii_fast_path_equivalence (mk : Int → Bool) (t : GenTables)
    (s : List Int) (hb : asciiBounded s = true) :
    StringWidth mk t s = (s.map (RuneWidth mk t)).sum := by
  have hbp : ∀ c ∈ s, 0 ≤ c ∧ c < 0x80 := by
    simp only [asciiBounded, List.all_eq_true, Bool.and_eq_true,
      decide_eq_true_eq] at hb
    exact hb
  rw [StringWidth, if_pos (isASCIIOnly_of_bounded hb)]
  have hfun : (fun (width b : Int) => if b < 0x20 ∨ b = 0x7F then width
        else width + 1)
      = fun (width b : Int) =>
          width + (if b < 0x20 ∨ b = 0x7F then 0 else 1) := by
    funext width b
    split
    · simp
    · rfl
  rw [hfun, foldl_add_eq_sum,
    List.map_congr_left (fun c hc => runeWidth_ascii mk t (hbp c hc).2)]
  simp

/-- Claim C8 witness: the equivalence applied to the concrete ASCII string
`"H\t\x7Fe"` (code points `0x48, 0x09, 0x7F, 0x65`), both sides evaluating
to 2. -/
theorem C8_ascii_fast_path_witness :
    asciiBounded [0x48, 0x09, 0x7F, 0x65] = true ∧
    StringWidth noCombiningMark genTablesModel [0x48, 0x09, 0x7F, 0x65]
      = (([0x48, 0x09, 0x7F, 0x65] : List Int).map
          (RuneWidth noCombiningMark genTablesModel)).sum :=
  ⟨by decide,
   C8_ascii_fast_path_equivalence noCombiningMark genTablesModel
     [0x48, 0x09, 0x7F, 0x65] (by decide)⟩

/-! ## Claim C9: correctness of the binary search -/

/-- Claim C9: on a table satisfying the RangeTable invariants (sorted
ascending by `first`, pairwise disjoint, `first <= last` entrywise), the
binary search answers `true` exactly when some entry contains the probed
code point; termination is by construction, the search being a total
function. -/
theorem C9_binarySearch_correct (t : List runeRange) (cp : Int)
    (hs : sortedByFirstB t = true) (ho : noOverlapB t = true)
    (hf : firstLeLastB t = true) :
    (binarySearch cp t = true ↔ ∃ rr, rr ∈ t ∧ rr.first ≤ cp ∧ cp ≤ rr.last) := by
  constructor
  · intro h
    exact binarySearchAux_sound cp t (t.length + 1) 0 ((t.length : Int) - 1) h
  · rintro ⟨rr, hmem, h1, h2⟩
    obtain ⟨n, hn⟩ := List.mem_iff_get.mp hmem
    have hn2 : (n : Nat) < t.length := n.2
    apply binarySearchAux_complete cp t (chain_of_invariants hs ho hf)
      (firstLeLastB_mem hf) (t.length + 1) 0 ((t.length : Int) - 1) n.1 n.2
      (by omega) (by omega) (by omega) (by omega) (by omega)
    · exact hn.symm ▸ h1
    · exact hn.symm ▸ h2

/-- Claim C9 witness: the correctness theorem applied to the spec-modelled
generated wide table (which satisfies the invariants) at the probe `0xFF10`,
contained in its entry `{0xFF01, 0xFF60}`. -/
theorem C9_binarySearch_witness :
    sortedByFirstB genTablesModel.wideTableGenerated = true ∧
    noOverlapB genTablesModel.wideTableGenerated = true ∧
    firstLeLastB genTablesModel.wideTableGenerated = true ∧
    binarySearch 0xFF10 genTablesModel.wideTableGenerated = true :=
  ⟨by decide, by decide, by decide,
   (C9_binarySearch_correct genTablesModel.wideTableGenerated 0xFF10
      (by decide) (by decide) (by decide)).mpr
     ⟨⟨0xFF01, 0xFF60⟩, by decide, by decide, by decide⟩⟩

/-! ## Claim C10: StringWidth is not monotone under appending -/

/-- Claim C10: appending a code point can strictly decrease `StringWidth`:
appending the text variation selector `U+FE0E` to the single CJK code point
`U+4E16` drops the width from 2 to 1, for every combining-mark predicate and
generated tables instance; hence string widths cannot be computed
incrementally by appending code points. -/
theorem C10_not_monotone_append (mk : Int → Bool) (t : GenTables) :
    StringWidth mk t [0x4E16] = 2 ∧
    StringWidth mk t ([0x4E16] ++ [0xFE0E]) = 1 ∧
    ∃ (s : List Int) (c : Int),
      StringWidth mk t (s ++ [c]) < StringWidth mk t s := by
  refine ⟨rfl, rfl, [0x4E16], 0xFE0E, ?_⟩
  have h1 : StringWidth mk t ([0x4E16] ++ [0xFE0E]) = 1 := rfl
  have h2 : StringWidth mk t [0x4E16] = 2 := rfl
  omega
